import Mathlib

/-!
Shallow embedding of the core export pipeline of `src/strava_exporter.py`
(class `StravaExporter`), covering:

- `get_strava_activities_since` (weekly-window fetch loop, lines 127-153),
- `format_data_for_json` (normalization of fetched activities, lines 155-210),
- the merge / sort / prune / stamp / persist pipeline of `run_export`
  (lines 275-360).

Modelling conventions:

- Timestamps (`Int`) are integers counted in days; `timedelta(days=n)`
  becomes integer addition.  The Python code stores dates as ISO-8601
  strings, parses them with `datetime.fromisoformat` for comparisons and
  compares the raw strings when sorting; both orders coincide for the
  canonical strings the exporter itself writes, so a single linearly
  ordered type stands for both.
- `dict.get` of an optional field becomes `Option`; a Python expression
  that raises (missing key subscript, `None.date()`, comparing `None`
  keys) becomes `Except Unit` with `.error ()`, and the single
  `try/except` of `run_export` becomes the top-level error case of
  `run_export` below.
- External I/O (Google Drive download/upload, the Strava API, the local
  file write) is an environment `Env` of oracle functions; the run's
  observable outcome is a `RunResult` recording the caught-error flag,
  the watermark used, the document handed to the local write, and
  whether the Drive upload was invoked.
- The fetch loop runs on explicit fuel `(now - since).toNat`, which is
  proven sufficient: the loop advances its cursor by 7 days per
  iteration, so it iterates at most that many times.  This keeps every
  definition computable by the kernel.
-/

/-- One workout object of the export document, as `run_export` observes it:
the dedup key `id` (absent when the stored JSON object lacks the key, in
which case `w['id']` raises), the two optional date fields consulted by
`w.get('start_date_local') or w.get('start_date')`, and `payload`
standing for every other field (name, type, metrics, splits). -/
structure Workout where
  id : Option String
  start_date_local : Option Int
  start_date : Option Int
  payload : String
deriving Repr, DecidableEq

/-- One summary activity returned by the Strava client: its stable id
(stringified, as `str(activity.id)`) and its start date. -/
structure Activity where
  id : String
  start_date : Int
deriving Repr, DecidableEq

/-- The per-activity detail record fetched by `get_activity` inside
`format_data_for_json`: the detailed start date and the remaining fields
(laps, metrics) collapsed into `payload`. -/
structure Detail where
  start_date : Int
  payload : String
deriving Repr, DecidableEq

/-- The `metadata` object stamped at lines 347-350. -/
structure Metadata where
  schema_version : String
  exported_at : Int
deriving Repr, DecidableEq

/-- The export document written locally and uploaded to Drive. -/
structure Doc where
  metadata : Metadata
  workouts : List Workout
deriving Repr, DecidableEq

/-- A successfully JSON-parsed prior snapshot, as `run_export` inspects it:
whether the top-level object has a `workouts` key (the only shape test the
code performs, at lines 293 and 320), and the workout list stored under it.
A parsed object without the key behaves identically whatever else it
contains, so other keys are not modelled. -/
structure ExistingDoc where
  hasWorkouts : Bool
  workouts : List Workout
deriving Repr, DecidableEq

/-- Outcome of `json.load` on the downloaded file: a `JSONDecodeError`
(caught at lines 285-289, yielding `existing_data = None`) or a parsed
object. -/
inductive Loaded where
  | parseError
  | doc (d : ExistingDoc)
deriving Repr, DecidableEq

/-- The environment of one `run_export` call: the results the external
collaborators return.  `api s e` is the outcome of
`client.get_activities(after=s, before=e)` for one window (an exception
inside the window is `.error`); `detailFetch` is `get_activity` inside
`format_data_for_json` (its exceptions propagate); `writeOk` and
`uploadOk` are the boolean results of `write_to_json` and
`upload_to_google_drive`, both of which catch their own errors. -/
structure Env where
  download : Bool
  loaded : Loaded
  api : Int → Int → Except Unit (List Activity)
  detailFetch : Activity → Except Unit Detail
  writeOk : Bool
  uploadOk : Bool
  now : Int

/-- Decidable equality for fallible step results, so concrete runs can
be checked by evaluation. -/
instance {e a : Type} [DecidableEq e] [DecidableEq a] :
    DecidableEq (Except e a)
  | .error x, .error y =>
    match decEq x y with
    | isTrue h => isTrue (by rw [h])
    | isFalse h => isFalse (by intro hc; cases hc; exact h rfl)
  | .error _, .ok _ => isFalse (by intro hc; cases hc)
  | .ok _, .error _ => isFalse (by intro hc; cases hc)
  | .ok x, .ok y =>
    match decEq x y with
    | isTrue h => isTrue (by rw [h])
    | isFalse h => isFalse (by intro hc; cases hc; exact h rfl)

/-- The effective date key of a workout:
`w.get('start_date_local') or w.get('start_date')` (line 296, line 329,
line 340). -/
def dateKey (w : Workout) : Option Int :=
  match w.start_date_local with
  | some d => some d
  | none => w.start_date

/-- Total variant of `dateKey` for use where all dates are known present
(sorting); the default is never consulted on those paths. -/
def workKey (w : Workout) : Int :=
  (dateKey w).getD 0

/-- Models `max(valid_dates)` over the list built at lines 294-301:
`none` exactly when the list is empty (the code guards this case and
leaves `last_fetch_date = None`). -/
def listMax : List Int → Option Int
  | [] => none
  | d :: ds =>
    match listMax ds with
    | none => some d
    | some m => some (max d m)

/-- Lines 291-308: the watermark (`last_fetch_date`).  With a prior
document that has a non-empty `workouts` list, it is the maximum of the
parseable effective dates (or `None` when there is none); otherwise it is
`now - days_back`. -/
def computeWatermark (existing : Option ExistingDoc) (now days_back : Int) :
    Option Int :=
  match existing with
  | some d =>
    if d.hasWorkouts && !d.workouts.isEmpty then
      listMax (d.workouts.filterMap dateKey)
    else
      some (now - days_back)
  | none => some (now - days_back)

/-- The body of the `while current_start < end_date` loop of
`get_strava_activities_since` (lines 134-151), on explicit fuel.  Each
iteration queries the window `[cur, min (cur + 7) now)`; a window whose
fetch raises contributes nothing (the `except` at lines 148-149) and the
loop advances by 7 days. -/
def fetchLoopF (api : Int → Int → Except Unit (List Activity))
    (now : Int) : Nat → Int → List Activity
  | 0, _ => []
  | Nat.succ n, cur =>
    if cur < now then
      (match api cur (min (cur + 7) now) with
       | .ok l => l
       | .error _ => []) ++ fetchLoopF api now n (cur + 7)
    else []

/-- Lines 127-153: fetch all activities since `since`, in weekly windows.
The fuel `(now - since).toNat` is sufficient because the cursor advances
by 7 ≥ 1 days per iteration; `fetchWindowsF_cover` proves the windows
processed under this fuel cover the whole interval, so the loop is never
cut short. -/
def get_strava_activities_since
    (api : Int → Int → Except Unit (List Activity))
    (since now : Int) : List Activity :=
  fetchLoopF api now (now - since).toNat since

/-- The sequence of `(current_start, current_end)` windows the loop
iterates over, on the same fuel as `fetchLoopF`. -/
def fetchWindowsF (now : Int) : Nat → Int → List (Int × Int)
  | 0, _ => []
  | Nat.succ n, cur =>
    if cur < now then
      (cur, min (cur + 7) now) :: fetchWindowsF now n (cur + 7)
    else []

/-- The windows queried by `get_strava_activities_since api since now`. -/
def fetchWindows (since now : Int) : List (Int × Int) :=
  fetchWindowsF now (now - since).toNat since

/-- Lines 178-202: the workout object built for one activity `a` from its
detail record `d`.  Only the `id` and `start_date` keys are written
(there is no `start_date_local` key in the output); everything else is
`payload`. -/
def formatWorkout (a : Activity) (d : Detail) : Workout :=
  { id := some a.id
    start_date_local := none
    start_date := some d.start_date
    payload := d.payload }

/-- The loop of `format_data_for_json` (lines 157-202): one
`get_activity` call per summary activity, whose failure propagates
(no try/except around it), appending the formatted workouts in fetch
order. -/
def formatWorkouts (df : Activity → Except Unit Detail) :
    List Activity → Except Unit (List Workout)
  | [] => .ok []
  | a :: rest =>
    match df a with
    | .error e => .error e
    | .ok d =>
      match formatWorkouts df rest with
      | .error e => .error e
      | .ok ws => .ok (formatWorkout a d :: ws)

/-- Lines 155-210: `format_data_for_json`, wrapping the formatted list
with fresh metadata. -/
def format_data_for_json (df : Activity → Except Unit Detail) (now : Int)
    (acts : List Activity) : Except Unit Doc :=
  match formatWorkouts df acts with
  | .error e => .error e
  | .ok ws =>
    .ok { metadata := { schema_version := "2.0", exported_at := now }
          workouts := ws }

/-- Line 322: `{w['id'] for w in existing_data['workouts']}`.  The
subscript raises (`KeyError`) on a stored workout without an `id` key. -/
def extractIds : List Workout → Except Unit (List String)
  | [] => .ok []
  | w :: rest =>
    match w.id with
    | none => .error ()
    | some i =>
      match extractIds rest with
      | .error e => .error e
      | .ok l => .ok (i :: l)

/-- Lines 325-327: append each newly formatted workout only when its id is
not in the set of ids computed once from the prior snapshot.  The set is
not updated inside the loop, so duplicates within `newWs` itself are all
appended. -/
def mergeWorkouts (existingWs newWs : List Workout) : List Workout :=
  existingWs ++
    newWs.filter (fun w => !decide (w.id ∈ existingWs.map Workout.id))

/-- Stable insertion step for the descending sort: an element passes over
strictly greater keys and lands before the first key less than or equal
to its own, which preserves the original relative order of equal keys,
matching the stability of Python `list.sort(reverse=True)`. -/
def insertDescBy (k : Workout → Int) (w : Workout) :
    List Workout → List Workout
  | [] => [w]
  | x :: xs =>
    if k w < k x then x :: insertDescBy k w xs
    else w :: x :: xs

/-- Stable sort, descending by key: the semantics of
`list.sort(key=..., reverse=True)` at line 329. -/
def sortDescBy (k : Workout → Int) : List Workout → List Workout
  | [] => []
  | x :: xs => insertDescBy k x (sortDescBy k xs)

/-- Line 329: the in-place sort of the merged list.  With two or more
elements, a workout whose date key is absent makes the underlying key
comparison raise `TypeError` (comparing `None`); with at most one element
no comparison happens. -/
def sortStep (ws : List Workout) : Except Unit (List Workout) :=
  if 2 ≤ ws.length ∧ (ws.any fun w => (dateKey w).isNone) = true then
    .error ()
  else
    .ok (sortDescBy workKey ws)

/-- Lines 334-341: drop every workout whose effective date is strictly
before `now - days_back`.  `datetime.fromisoformat` raises on a workout
with neither date field, aborting the run. -/
def pruneStep (now days_back : Int) (ws : List Workout) :
    Except Unit (List Workout) :=
  if (ws.any fun w => (dateKey w).isNone) = true then
    .error ()
  else
    .ok (ws.filter fun w => decide (now - days_back ≤ (dateKey w).getD 0))

/-- Lines 281-289: the prior snapshot available to the run.  `None` when
the Drive download reported no file (or failed, both return `False`) or
when `json.load` raised. -/
def loadExisting (env : Env) : Option ExistingDoc :=
  if env.download then
    match env.loaded with
    | .parseError => none
    | .doc d => some d
  else none

/-- Lines 319-332: build the pre-prune workout list.  With a prior
document that has a `workouts` key: compute the id set (line 322, may
raise), format the new activities (line 324, may raise), append the
non-duplicates and sort (lines 325-329).  Otherwise format the fresh
activities alone — note this branch performs no sort. -/
def buildMerged (env : Env) (new_acts : List Activity)
    (existing : Option ExistingDoc) : Except Unit (List Workout) :=
  match existing with
  | some d =>
    if d.hasWorkouts then
      match extractIds d.workouts with
      | .error e => .error e
      | .ok _ =>
        match format_data_for_json env.detailFetch env.now new_acts with
        | .error e => .error e
        | .ok fresh => sortStep (mergeWorkouts d.workouts fresh.workouts)
    else
      (format_data_for_json env.detailFetch env.now new_acts).map
        Doc.workouts
  | none =>
    (format_data_for_json env.detailFetch env.now new_acts).map
      Doc.workouts

/-- Observable outcome of one `run_export` call.  `error` is true when
the top-level `except` at lines 359-360 caught an exception; `watermark`
is the `last_fetch_date` the run computed (when it got that far);
`written` is the document handed to `write_to_json` (line 352), `none`
when the run never reached persistence; `uploaded` records whether
`upload_to_google_drive` was invoked (line 354), which happens exactly
when the local write reported success. -/
structure RunResult where
  error : Bool
  watermark : Option Int
  written : Option Doc
  uploaded : Bool
deriving Repr, DecidableEq

/-- Lines 275-360: `run_export`.  Load the prior snapshot, compute the
watermark (a `None` watermark makes the very next use of it raise —
`last_fetch_date.date()` at line 311 — ending the run through the
top-level handler), fetch since the watermark, merge or start fresh,
prune, stamp fresh metadata, write locally, and upload only when the
local write succeeded. -/
def run_export (env : Env) (days_back : Int) : RunResult :=
  match computeWatermark (loadExisting env) env.now days_back with
  | none =>
    { error := true, watermark := none, written := none, uploaded := false }
  | some wm =>
    match buildMerged env (get_strava_activities_since env.api wm env.now)
        (loadExisting env) with
    | .error _ =>
      { error := true, watermark := some wm, written := none
        uploaded := false }
    | .ok ws =>
      match pruneStep env.now days_back ws with
      | .error _ =>
        { error := true, watermark := some wm, written := none
          uploaded := false }
      | .ok pruned =>
        { error := false
          watermark := some wm
          written := some
            { metadata := { schema_version := "2.0", exported_at := env.now }
              workouts := pruned }
          uploaded := env.writeOk }

/-- The per-window result contributed to the concatenation: the window's
activities, or nothing when the window's fetch raised. -/
def windowResult (api : Int → Int → Except Unit (List Activity))
    (p : Int × Int) : List Activity :=
  match api p.1 p.2 with
  | .ok l => l
  | .error _ => []

/-! ### Spec-side predicates and concrete fixtures -/

/-- Spec reading of the ordering invariant: the workouts array is sorted
by `start_date` descending. -/
def sortedByStartDateDesc (ws : List Workout) : Prop :=
  List.Pairwise (fun a b => b.start_date.getD 0 ≤ a.start_date.getD 0) ws

/-- Ordering the code actually establishes: sorted descending by the
effective date key (`start_date_local` when present, else
`start_date`). -/
def sortedByDateKeyDesc (ws : List Workout) : Prop :=
  List.Pairwise (fun a b => workKey b ≤ workKey a) ws

/-- Spec reading of the watermark: the maximum `start_date` over the
stored workouts (ignoring `start_date_local`). -/
def maxStartDate (ws : List Workout) : Option Int :=
  listMax (ws.filterMap Workout.start_date)

/-- The fetch contract of the spec for `get_strava_activities_since`:
the returned list is the in-order concatenation of per-window results
(with a failed window contributing nothing), the windows all span at
most 7 days, they exactly cover the half-open interval from `since` to
`now`, they are consecutive, and the first window starts at `since`
itself (the watermark is inclusive). -/
def FetchSpec (api : Int → Int → Except Unit (List Activity))
    (since now : Int) : Prop :=
  get_strava_activities_since api since now =
      (fetchWindows since now).flatMap (windowResult api) ∧
  (∀ p ∈ fetchWindows since now, p.1 < p.2 ∧ p.2 - p.1 ≤ 7) ∧
  (∀ t : Int, (since ≤ t ∧ t < now) ↔
      ∃ p ∈ fetchWindows since now, p.1 ≤ t ∧ t < p.2) ∧
  List.Chain' (fun p q : Int × Int => p.2 = q.1) (fetchWindows since now) ∧
  (fetchWindows since now).head? = some (since, min (since + 7) now)

/-- The watermark contract as the code realizes it: when a prior document
with a non-empty workout list is present, the watermark is the maximum of
the effective dates (local-first) of the workouts that carry one; with no
usable prior document it is `now - days_back`; and the queried windows
cover exactly the half-open interval from the watermark to `now`,
starting at the watermark itself. -/
def WatermarkSpec (existing : Option ExistingDoc) (now days_back wm : Int) :
    Prop :=
  (∀ d, existing = some d → d.hasWorkouts = true → d.workouts ≠ [] →
      wm ∈ d.workouts.filterMap dateKey ∧
      ∀ x ∈ d.workouts.filterMap dateKey, x ≤ wm) ∧
  ((existing = none ∨ ∃ d, existing = some d ∧
      ¬(d.hasWorkouts = true ∧ d.workouts ≠ [])) → wm = now - days_back) ∧
  (∀ t : Int, (wm ≤ t ∧ t < now) ↔
      ∃ p ∈ fetchWindows wm now, p.1 ≤ t ∧ t < p.2) ∧
  (wm < now → (fetchWindows wm now).head? = some (wm, min (wm + 7) now))

/-- A detail fetch that always succeeds, echoing the summary date. -/
def okDetail : Activity → Except Unit Detail :=
  fun a => .ok ⟨a.start_date, ""⟩

/-- Workout fixtures. -/
def wA1 : Workout := ⟨some "A", none, some 1, ""⟩

def wB2 : Workout := ⟨some "B", none, some 2, ""⟩

def wX1 : Workout := ⟨some "X", none, some 1, ""⟩

def wX2 : Workout := ⟨some "X", none, some 2, ""⟩

/-- A stored workout whose local date (0) is old while its `start_date`
(3) is recent. -/
def wMixed : Workout := ⟨some "a", some 0, some 3, ""⟩

/-- A stored workout whose local date (3) differs from its `start_date`
(5). -/
def wLocal : Workout := ⟨some "a", some 3, some 5, ""⟩

/-- A stored workout carrying neither date field. -/
def wNoDates : Workout := ⟨some "n", none, none, ""⟩

/-- A first run with no prior snapshot whose single window returns two
activities, oldest first. -/
def envFresh : Env :=
  { download := false
    loaded := .parseError
    api := fun s _ => if s = 1 then .ok [⟨"A", 1⟩, ⟨"B", 2⟩] else .ok []
    detailFetch := okDetail
    writeOk := true
    uploadOk := true
    now := 3 }

/-- A second run that loads exactly the document the fresh run persisted
and fetches nothing new. -/
def envSecond : Env :=
  { download := true
    loaded := .doc ⟨true, [wA1, wB2]⟩
    api := fun _ _ => .ok []
    detailFetch := okDetail
    writeOk := true
    uploadOk := true
    now := 3 }

/-- A run whose prior snapshot holds the mixed-date workout and whose
fetch returns nothing. -/
def envMixed : Env :=
  { download := true
    loaded := .doc ⟨true, [wMixed]⟩
    api := fun _ _ => .ok []
    detailFetch := okDetail
    writeOk := true
    uploadOk := true
    now := 3 }

/-- A run with an empty prior workout list whose fetch returns two
activities sharing one id. -/
def envDup : Env :=
  { download := true
    loaded := .doc ⟨true, []⟩
    api := fun _ _ => .ok [⟨"X", 1⟩, ⟨"X", 2⟩]
    detailFetch := okDetail
    writeOk := true
    uploadOk := true
    now := 3 }

/-- A run whose prior snapshot parses but whose single stored workout has
neither date field. -/
def envNoDates : Env :=
  { download := true
    loaded := .doc ⟨true, [wNoDates]⟩
    api := fun _ _ => .ok []
    detailFetch := okDetail
    writeOk := true
    uploadOk := true
    now := 3 }

/-- A second run loading an already sorted snapshot, fetching nothing. -/
def envIdem : Env :=
  { download := true
    loaded := .doc ⟨true, [wB2, wA1]⟩
    api := fun _ _ => .ok []
    detailFetch := okDetail
    writeOk := true
    uploadOk := true
    now := 3 }

/-- The document the fresh run persists: fetch order, not sorted. -/
def docFresh : Doc := ⟨⟨"2.0", 3⟩, [wA1, wB2]⟩

/-- The document the second run persists: re-sorted descending. -/
def docSecond : Doc := ⟨⟨"2.0", 3⟩, [wB2, wA1]⟩

/-- The document the already-sorted second run persists unchanged. -/
def docIdem : Doc := ⟨⟨"2.0", 3⟩, [wB2, wA1]⟩

/-- Workout stored first, with payload "old". -/
def wOld : Workout := ⟨some "a", none, some 1, "old"⟩

/-- Freshly fetched workout with the same id and different payload. -/
def wNew : Workout := ⟨some "a", none, some 2, "new"⟩

/-- A recent stored workout, inside the retention window. -/
def w8 : Workout := ⟨some "b", none, some 8, ""⟩

/-- An API oracle that always answers with an empty window. -/
def apiNone : Int → Int → Except Unit (List Activity) :=
  fun _ _ => .ok []

/-- A run whose downloaded snapshot fails to parse as JSON. -/
def envParseErr : Env :=
  { download := true
    loaded := .parseError
    api := fun _ _ => .ok []
    detailFetch := okDetail
    writeOk := true
    uploadOk := true
    now := 3 }

/-! ### Helper lemmas about the fetch loop -/

theorem fetchLoopF_eq_flatMap
    (api : Int → Int → Except Unit (List Activity)) (now : Int) :
    ∀ (n : Nat) (cur : Int),
      fetchLoopF api now n cur =
        (fetchWindowsF now n cur).flatMap (windowResult api) := by
  intro n
  induction n with
  | zero => intro cur; rfl
  | succ n ih =>
    intro cur
    simp only [fetchLoopF, fetchWindowsF]
    by_cases h : cur < now
    · simp only [if_pos h, List.flatMap_cons, ih, windowResult]
    · simp [if_neg h]

theorem mem_fetchLoopF
    (api : Int → Int → Except Unit (List Activity)) (now : Int) :
    ∀ (n : Nat) (cur : Int) (a : Activity),
      a ∈ fetchLoopF api now n cur →
      ∃ s e l, api s e = .ok l ∧ a ∈ l := by
  intro n
  induction n with
  | zero => intro cur a h; simp [fetchLoopF] at h
  | succ n ih =>
    intro cur a h
    simp only [fetchLoopF] at h
    by_cases hc : cur < now
    · rw [if_pos hc] at h
      rcases List.mem_append.mp h with h1 | h2
      · cases hapi : api cur (min (cur + 7) now) with
        | ok l => rw [hapi] at h1; exact ⟨cur, min (cur + 7) now, l, hapi, h1⟩
        | error e => rw [hapi] at h1; simp at h1
      · exact ih (cur + 7) a h2
    · rw [if_neg hc] at h; simp at h

theorem fetchWindowsF_width (now : Int) :
    ∀ (n : Nat) (cur : Int), ∀ p ∈ fetchWindowsF now n cur,
      p.1 < p.2 ∧ p.2 - p.1 ≤ 7 := by
  intro n
  induction n with
  | zero => intro cur p hp; simp [fetchWindowsF] at hp
  | succ n ih =>
    intro cur p hp
    simp only [fetchWindowsF] at hp
    by_cases hc : cur < now
    · rw [if_pos hc] at hp
      rcases List.mem_cons.mp hp with rfl | hp
      · rcases min_choice (cur + 7) now with hm | hm <;>
          · simp only [hm]; omega
      · exact ih (cur + 7) p hp
    · rw [if_neg hc] at hp; simp at hp

theorem fetchWindowsF_cover (now : Int) :
    ∀ (n : Nat) (cur : Int), (now - cur).toNat ≤ n →
      ∀ t : Int, (cur ≤ t ∧ t < now) ↔
        ∃ p ∈ fetchWindowsF now n cur, p.1 ≤ t ∧ t < p.2 := by
  intro n
  induction n with
  | zero =>
    intro cur h t
    constructor
    · intro ht; exfalso; omega
    · intro ⟨p, hp, _⟩; simp [fetchWindowsF] at hp
  | succ n ih =>
    intro cur h t
    simp only [fetchWindowsF]
    by_cases hc : cur < now
    · rw [if_pos hc]
      rcases min_choice (cur + 7) now with hm | hm
      · -- the window ends at cur + 7 ≤ now
        have hm7 : cur + 7 ≤ now := by
          have := min_le_right (cur + 7) now; omega
        constructor
        · intro ⟨h1, h2⟩
          by_cases ht : t < cur + 7
          · exact ⟨(cur, min (cur + 7) now), List.mem_cons_self _ _,
              h1, by omega⟩
          · rcases (ih (cur + 7) (by omega) t).mp ⟨by omega, h2⟩ with
              ⟨p, hp, hpt⟩
            exact ⟨p, List.mem_cons_of_mem _ hp, hpt⟩
        · intro ⟨p, hp, hpt⟩
          rcases List.mem_cons.mp hp with rfl | hp
          · simp only [hm] at hpt; omega
          · have := (ih (cur + 7) (by omega) t).mpr ⟨p, hp, hpt⟩
            omega
      · -- the window ends at now (last window)
        have hm7 : now ≤ cur + 7 := by
          have := min_le_left (cur + 7) now; omega
        constructor
        · intro ⟨h1, h2⟩
          exact ⟨(cur, min (cur + 7) now), List.mem_cons_self _ _,
            h1, by omega⟩
        · intro ⟨p, hp, hpt⟩
          rcases List.mem_cons.mp hp with rfl | hp
          · simp only [hm] at hpt; omega
          · have := (ih (cur + 7) (by omega) t).mpr ⟨p, hp, hpt⟩
            omega
    · rw [if_neg hc]
      constructor
      · intro ht; exfalso; omega
      · intro ⟨p, hp, _⟩; simp at hp

theorem fetchWindowsF_shape (now : Int) :
    ∀ (n : Nat) (cur : Int),
      fetchWindowsF now n cur = [] ∨
      (cur < now ∧ ∃ rest,
        fetchWindowsF now n cur = (cur, min (cur + 7) now) :: rest) := by
  intro n cur
  cases n with
  | zero => exact Or.inl rfl
  | succ n =>
    simp only [fetchWindowsF]
    by_cases hc : cur < now
    · exact Or.inr ⟨hc, _, by rw [if_pos hc]⟩
    · exact Or.inl (by rw [if_neg hc])

theorem fetchWindowsF_chain (now : Int) :
    ∀ (n : Nat) (cur : Int),
      List.Chain' (fun p q : Int × Int => p.2 = q.1)
        (fetchWindowsF now n cur) := by
  intro n
  induction n with
  | zero => intro cur; simp [fetchWindowsF]
  | succ n ih =>
    intro cur
    simp only [fetchWindowsF]
    by_cases hc : cur < now
    · rw [if_pos hc]
      apply List.chain'_cons'.mpr
      refine ⟨?_, ih (cur + 7)⟩
      intro q hq
      rcases fetchWindowsF_shape now n (cur + 7) with hnil | ⟨hlt, rest, heq⟩
      · rw [hnil] at hq; simp at hq
      · rw [heq] at hq
        simp only [List.head?_cons, Option.mem_def, Option.some.injEq] at hq
        subst hq
        show min (cur + 7) now = cur + 7
        exact min_eq_left (by omega)
    · rw [if_neg hc]; simp

theorem fetchWindows_head (since now : Int) (h : since < now) :
    (fetchWindows since now).head? = some (since, min (since + 7) now) := by
  unfold fetchWindows
  have hn : (now - since).toNat = ((now - since).toNat - 1) + 1 := by omega
  rw [hn]
  simp only [fetchWindowsF, if_pos h, List.head?_cons]

/-! ### Helper lemmas about the stable descending sort -/

theorem insertDescBy_perm (k : Workout → Int) (w : Workout) :
    ∀ l : List Workout, (insertDescBy k w l).Perm (w :: l) := by
  intro l
  induction l with
  | nil => simp [insertDescBy]
  | cons x xs ih =>
    simp only [insertDescBy]
    by_cases h : k w < k x
    · rw [if_pos h]
      exact (ih.cons x).trans (List.Perm.swap w x xs)
    · rw [if_neg h]

theorem sortDescBy_perm (k : Workout → Int) :
    ∀ l : List Workout, (sortDescBy k l).Perm l := by
  intro l
  induction l with
  | nil => simp [sortDescBy]
  | cons x xs ih =>
    simp only [sortDescBy]
    exact (insertDescBy_perm k x (sortDescBy k xs)).trans (ih.cons x)

theorem insertDescBy_pairwise (k : Workout → Int) (w : Workout) :
    ∀ l : List Workout, List.Pairwise (fun a b => k b ≤ k a) l →
      List.Pairwise (fun a b => k b ≤ k a) (insertDescBy k w l) := by
  intro l
  induction l with
  | nil => intro _; simp [insertDescBy]
  | cons x xs ih =>
    intro h
    rcases List.pairwise_cons.mp h with ⟨hx, hxs⟩
    simp only [insertDescBy]
    by_cases hw : k w < k x
    · rw [if_pos hw]
      apply List.pairwise_cons.mpr
      refine ⟨?_, ih hxs⟩
      intro y hy
      have hy' : y ∈ w :: xs := (insertDescBy_perm k w xs).mem_iff.mp hy
      rcases List.mem_cons.mp hy' with rfl | hy''
      · omega
      · exact hx y hy''
    · rw [if_neg hw]
      apply List.pairwise_cons.mpr
      refine ⟨?_, h⟩
      intro y hy
      rcases List.mem_cons.mp hy with rfl | hy'
      · omega
      · have := hx y hy'; omega

theorem sortDescBy_pairwise (k : Workout → Int) :
    ∀ l : List Workout,
      List.Pairwise (fun a b => k b ≤ k a) (sortDescBy k l) := by
  intro l
  induction l with
  | nil => simp [sortDescBy]
  | cons x xs ih => exact insertDescBy_pairwise k x _ ih

theorem insertDescBy_eq_cons (k : Workout → Int) (w : Workout)
    (l : List Workout) (h : ∀ y ∈ l, k y ≤ k w) :
    insertDescBy k w l = w :: l := by
  cases l with
  | nil => rfl
  | cons x xs =>
    simp only [insertDescBy]
    rw [if_neg]
    have := h x (List.mem_cons_self x xs)
    omega

theorem sortDescBy_eq_of_pairwise (k : Workout → Int) :
    ∀ l : List Workout, List.Pairwise (fun a b => k b ≤ k a) l →
      sortDescBy k l = l := by
  intro l
  induction l with
  | nil => intro _; rfl
  | cons x xs ih =>
    intro h
    rcases List.pairwise_cons.mp h with ⟨hx, hxs⟩
    simp only [sortDescBy]
    rw [ih hxs]
    exact insertDescBy_eq_cons k x xs hx

/-! ### Helper lemmas about `listMax`, `formatWorkouts` and `extractIds` -/

theorem listMax_eq_none (l : List Int) (h : listMax l = none) : l = [] := by
  cases l with
  | nil => rfl
  | cons d ds =>
    exfalso
    simp only [listMax] at h
    cases hds : listMax ds <;> rw [hds] at h <;> simp at h

theorem listMax_spec :
    ∀ (l : List Int) (m : Int), listMax l = some m →
      m ∈ l ∧ ∀ x ∈ l, x ≤ m := by
  intro l
  induction l with
  | nil => intro m h; simp [listMax] at h
  | cons d ds ih =>
    intro m h
    simp only [listMax] at h
    cases hds : listMax ds with
    | none =>
      rw [hds] at h
      have hm : d = m := by simpa using h
      have hnil : ds = [] := listMax_eq_none ds hds
      subst hm
      subst hnil
      exact ⟨List.mem_singleton_self d, by simp⟩
    | some m' =>
      rw [hds] at h
      have hm : max d m' = m := by simpa using h
      rcases ih m' hds with ⟨hmem, hle⟩
      subst hm
      constructor
      · rcases max_choice d m' with hc | hc <;> rw [hc]
        · exact List.mem_cons_self d ds
        · exact List.mem_cons_of_mem d hmem
      · intro x hx
        rcases List.mem_cons.mp hx with rfl | hx'
        · exact le_max_left _ _
        · exact le_trans (hle x hx') (le_max_right _ _)

theorem listMax_isSome (l : List Int) (h : l ≠ []) :
    ∃ m, listMax l = some m := by
  cases l with
  | nil => exact absurd rfl h
  | cons d ds =>
    simp only [listMax]
    cases listMax ds with
    | none => exact ⟨d, rfl⟩
    | some m => exact ⟨max d m, rfl⟩

theorem formatWorkouts_ok_mem (df : Activity → Except Unit Detail) :
    ∀ (acts : List Activity) (ws : List Workout),
      formatWorkouts df acts = .ok ws →
      ∀ w ∈ ws, ∃ a ∈ acts, ∃ d, df a = .ok d ∧ w = formatWorkout a d := by
  intro acts
  induction acts with
  | nil =>
    intro ws h w hw
    simp only [formatWorkouts] at h
    cases h
    simp at hw
  | cons a rest ih =>
    intro ws h w hw
    simp only [formatWorkouts] at h
    cases hdf : df a with
    | error e => rw [hdf] at h; cases h
    | ok d =>
      rw [hdf] at h
      cases hrest : formatWorkouts df rest with
      | error e => rw [hrest] at h; cases h
      | ok ws' =>
        rw [hrest] at h
        cases h
        rcases List.mem_cons.mp hw with rfl | hw'
        · exact ⟨a, List.mem_cons_self a rest, d, hdf, rfl⟩
        · rcases ih ws' hrest w hw' with ⟨a', ha', d', hd', hwd'⟩
          exact ⟨a', List.mem_cons_of_mem a ha', d', hd', hwd'⟩


/-! ### Helper lemmas about the run as a whole -/

theorem run_export_outcomes (env : Env) (db : Int) :
    ((run_export env db).uploaded = env.writeOk ∧
     (run_export env db).error = false ∧
     ∃ d, (run_export env db).written = some d) ∨
    ((run_export env db).uploaded = false ∧
     (run_export env db).error = true ∧
     (run_export env db).written = none) := by
  unfold run_export
  split
  · right; exact ⟨rfl, rfl, rfl⟩
  · split
    · right; exact ⟨rfl, rfl, rfl⟩
    · split
      · right; exact ⟨rfl, rfl, rfl⟩
      · left; exact ⟨rfl, rfl, _, rfl⟩

theorem countP_eq_one_of_nodup_mem {a : Option String}
    {l : List (Option String)} (h : l.Nodup) (ha : a ∈ l) :
    l.countP (fun x => decide (x = a)) = 1 := by
  induction l with
  | nil => simp at ha
  | cons b bs ih =>
    rcases List.nodup_cons.mp h with ⟨hb, hbs⟩
    rcases List.mem_cons.mp ha with rfl | ha'
    · rw [List.countP_cons_of_pos _ _ (by simp)]
      have : bs.countP (fun x => decide (x = a)) = 0 := by
        rw [List.countP_eq_zero]
        intro x hx
        simp only [decide_eq_true_eq]
        rintro rfl
        exact hb hx
      rw [this]
    · have hne : b ≠ a := by rintro rfl; exact hb ha'
      rw [List.countP_cons_of_neg _ _ (by simp [hne])]
      exact ih hbs ha'

/-! ### Claim theorems -/

/-- C1: for every run, if the Drive upload was invoked then the run
caught no error, the full document had been constructed and handed to
the local write, and the local write reported success.  Contrapositive
of the claim: any error raised during fetch, normalize, or merge ends
the run without the upload ever being invoked, so the previously
persisted remote snapshot is untouched. -/
theorem C1_upload_only_after_build_and_local_write (env : Env) (db : Int)
    (h : (run_export env db).uploaded = true) :
    (run_export env db).error = false ∧
    (run_export env db).written ≠ none ∧ env.writeOk = true := by
  rcases run_export_outcomes env db with ⟨hu, he, d, hw⟩ | ⟨hu, he, hw⟩
  · exact ⟨he, by simp [hw], by rw [← hu, h]⟩
  · rw [hu] at h; cases h

/-- Witness for C1: a completed fresh run uploads, and indeed caught no
error, wrote a document, and had a successful local write. -/
theorem C1_witness :
    (run_export envFresh 2).error = false ∧
    (run_export envFresh 2).written ≠ none ∧ envFresh.writeOk = true :=
  C1_upload_only_after_build_and_local_write envFresh 2 (by decide)

/-- C2: for prior workouts A (with set-like distinct ids) and newly
fetched workouts B sharing an id, the merge result contains that id
exactly once and the retained workout is A's stored version — the merge
filters out every new workout whose id is already present, so a stored
workout is never overwritten. -/
theorem C2_merge_dedup_first_seen_wins (A B : List Workout) (i : String)
    (hA : (A.map Workout.id).Nodup)
    (hiA : some i ∈ A.map Workout.id) (hiB : some i ∈ B.map Workout.id) :
    (mergeWorkouts A B).filter (fun w => decide (w.id = some i)) =
      A.filter (fun w => decide (w.id = some i)) ∧
    ((mergeWorkouts A B).filter (fun w => decide (w.id = some i))).length
      = 1 := by
  have h1 : (mergeWorkouts A B).filter (fun w => decide (w.id = some i)) =
      A.filter (fun w => decide (w.id = some i)) := by
    unfold mergeWorkouts
    rw [List.filter_append]
    have h2 : (B.filter
        (fun w => !decide (w.id ∈ A.map Workout.id))).filter
        (fun w => decide (w.id = some i)) = [] := by
      rw [List.filter_eq_nil_iff]
      intro w hw
      rcases List.mem_filter.mp hw with ⟨_, hpred⟩
      simp only [decide_eq_true_eq]
      intro hid
      have : w.id ∈ A.map Workout.id := by rw [hid]; exact hiA
      simp [this] at hpred
    rw [h2, List.append_nil]
  refine ⟨h1, ?_⟩
  rw [h1]
  rw [← List.countP_eq_length_filter]
  have hmap : List.countP (fun w => decide (w.id = some i)) A =
      List.countP (fun x => decide (x = some i)) (A.map Workout.id) := by
    rw [List.countP_map]
    rfl
  rw [hmap]
  exact countP_eq_one_of_nodup_mem hA hiA

/-- Witness for C2: a stored workout with id "a" and payload "old"
survives a merge against a fresh workout with the same id and payload
"new", appearing exactly once. -/
theorem C2_witness :
    (mergeWorkouts [wOld] [wNew]).filter
        (fun w => decide (w.id = some "a")) =
      [wOld].filter (fun w => decide (w.id = some "a")) ∧
    ((mergeWorkouts [wOld] [wNew]).filter
        (fun w => decide (w.id = some "a"))).length = 1 :=
  C2_merge_dedup_first_seen_wins [wOld] [wNew] "a"
    (by decide) (by decide) (by decide)

/-- C3 counterexample: a run whose prior snapshot holds a workout with
`start_date_local = 0` (outside the window) and `start_date = 3` (inside
the window, since the cutoff is 3 - 1 = 2).  The workout is in the
pre-prune merged collection, yet the persisted workouts array is empty:
the prune key is the local date, not `start_date` as the claim states. -/
theorem C3_counterexample :
    buildMerged envMixed
        (get_strava_activities_since envMixed.api 0 envMixed.now)
        (loadExisting envMixed) = .ok [wMixed] ∧
    run_export envMixed 1 =
      { error := false, watermark := some 0
        written := some ⟨⟨"2.0", 3⟩, []⟩, uploaded := true } ∧
    wMixed.start_date = some 3 ∧ 3 - 1 ≤ (3:Int) := by decide

/-- C3 (amended): after a successful prune, a workout of the
pre-prune collection is absent from the result exactly when its
effective date (`start_date_local` when present, else `start_date`) is
strictly older than `now - days_back`, and present when that date is at
or after the cutoff. -/
theorem C3_retention_by_effective_date (now db : Int) (ws res : List Workout)
    (h : pruneStep now db ws = .ok res) (w : Workout) (hw : w ∈ ws)
    (d : Int) (hd : dateKey w = some d) :
    (d < now - db → w ∉ res) ∧ (now - db ≤ d → w ∈ res) := by
  have hres : res =
      ws.filter (fun w => decide (now - db ≤ (dateKey w).getD 0)) := by
    unfold pruneStep at h
    split at h
    · cases h
    · exact (Except.ok.inj h).symm
  subst hres
  constructor
  · intro hlt hmem
    rcases List.mem_filter.mp hmem with ⟨_, hp⟩
    rw [hd] at hp
    simp at hp
    omega
  · intro hge
    apply List.mem_filter.mpr
    refine ⟨hw, ?_⟩
    rw [hd]
    simpa using hge

/-- Witness for C3: a workout dated 8 with cutoff 10 - 3 = 7 is kept. -/
theorem C3_witness :
    ((8:Int) < 10 - 3 → w8 ∉ ([w8] : List Workout)) ∧
    ((10:Int) - 3 ≤ 8 → w8 ∈ ([w8] : List Workout)) :=
  C3_retention_by_effective_date 10 3 [w8] [w8] (by decide) w8
    (by decide) 8 (by decide)

/-- C4 counterexample: a run with no prior snapshot persists the fetched
activities in fetch order — here ascending dates 1, 2 — so the persisted
workouts array is not sorted by `start_date` descending; the
no-prior-snapshot branch never sorts. -/
theorem C4_counterexample :
    (run_export envFresh 2).written = some docFresh ∧
    ¬ sortedByStartDateDesc docFresh.workouts := by
  constructor
  · decide
  · unfold sortedByStartDateDesc
    decide

/-- C4 (amended): when a prior document with a `workouts` key was
loaded (the merge branch), every persisted document has its workouts
sorted descending by the effective date key (`start_date_local` when
present, else `start_date`); a run with no usable prior snapshot keeps
fetch order instead. -/
theorem C4_sorted_desc_with_prior_snapshot (env : Env) (db : Int) (d : ExistingDoc) (doc : Doc)
    (h1 : env.download = true) (h2 : env.loaded = .doc d)
    (h3 : d.hasWorkouts = true)
    (h4 : (run_export env db).written = some doc) :
    sortedByDateKeyDesc doc.workouts := by
  have hle : loadExisting env = some d := by simp [loadExisting, h1, h2]
  unfold run_export at h4
  rw [hle] at h4
  cases hwm : computeWatermark (some d) env.now db with
  | none => rw [hwm] at h4; cases h4
  | some wm =>
    rw [hwm] at h4
    dsimp only at h4
    cases hbm : buildMerged env
        (get_strava_activities_since env.api wm env.now) (some d) with
    | error e => rw [hbm] at h4; cases h4
    | ok ws =>
      rw [hbm] at h4
      dsimp only at h4
      cases hpr : pruneStep env.now db ws with
      | error e => rw [hpr] at h4; cases h4
      | ok pruned =>
        rw [hpr] at h4
        dsimp only at h4
        have hdoc : doc =
            ⟨⟨"2.0", env.now⟩, pruned⟩ := (Option.some.inj h4).symm
        subst hdoc
        unfold buildMerged at hbm
        dsimp only at hbm
        rw [if_pos h3] at hbm
        cases hei : extractIds d.workouts with
        | error e => rw [hei] at hbm; cases hbm
        | ok ids =>
          rw [hei] at hbm
          dsimp only at hbm
          cases hfj : format_data_for_json env.detailFetch env.now
              (get_strava_activities_since env.api wm env.now) with
          | error e => rw [hfj] at hbm; cases hbm
          | ok fresh =>
            rw [hfj] at hbm
            dsimp only at hbm
            have hsort : ws =
                sortDescBy workKey
                  (mergeWorkouts d.workouts fresh.workouts) := by
              unfold sortStep at hbm
              split at hbm
              · cases hbm
              · exact (Except.ok.inj hbm).symm
            have hfil : pruned = ws.filter
                (fun w => decide (env.now - db ≤ (dateKey w).getD 0)) := by
              unfold pruneStep at hpr
              split at hpr
              · cases hpr
              · exact (Except.ok.inj hpr).symm
            show sortedByDateKeyDesc pruned
            unfold sortedByDateKeyDesc
            rw [hfil]
            apply List.Pairwise.sublist (List.filter_sublist ws)
            rw [hsort]
            exact sortDescBy_pairwise workKey _

/-- Witness for C4: the run that loads a sorted two-workout snapshot
persists a document whose workouts are sorted descending by the
effective date key. -/
theorem C4_witness : sortedByDateKeyDesc docIdem.workouts :=
  C4_sorted_desc_with_prior_snapshot envIdem 2 ⟨true, [wB2, wA1]⟩ docIdem
    (by decide) (by decide) (by decide) (by decide)

/-- C5 counterexample: a prior snapshot whose single workout has
`start_date_local = 3` and `start_date = 5`.  The maximum `start_date`
is 5, but the computed watermark is 3: the watermark scans
`start_date_local or start_date`, preferring the local date, not
`start_date` as the claim states. -/
theorem C5_counterexample :
    computeWatermark (some ⟨true, [wLocal]⟩) 100 90 = some 3 ∧
    maxStartDate [wLocal] = some 5 := by decide

/-- C5 (amended): whenever the watermark computation yields a value,
that value is the maximum of the effective dates (`start_date_local`
preferred over `start_date`) of the prior workouts carrying one when a
non-empty prior document exists, and `now - days_back` otherwise; and
the fetch windows requested cover exactly the half-open interval from
the watermark to `now`, with the first window starting at the watermark
itself (inclusive). -/
theorem C5_watermark_effective_date_max (existing : Option ExistingDoc) (now db wm : Int)
    (h : computeWatermark existing now db = some wm) :
    WatermarkSpec existing now db wm := by
  refine ⟨?_, ?_, ?_, ?_⟩
  · intro d hd h3 h4
    subst hd
    simp only [computeWatermark] at h
    rw [if_pos (by simp [h3, h4])] at h
    exact listMax_spec _ wm h
  · intro hcase
    rcases hcase with rfl | ⟨d, rfl, hng⟩
    · simp only [computeWatermark] at h
      exact (Option.some.inj h).symm
    · simp only [computeWatermark] at h
      rw [if_neg] at h
      · exact (Option.some.inj h).symm
      · intro hbool
        apply hng
        have hb1 : d.hasWorkouts = true := by
          cases hb : d.hasWorkouts
          · rw [hb] at hbool; simp at hbool
          · rfl
        have hb2 : d.workouts ≠ [] := by
          intro hnil
          rw [hnil] at hbool
          simp at hbool
        exact ⟨hb1, hb2⟩
  · exact fetchWindowsF_cover now _ wm (le_refl _)
  · intro hlt
    exact fetchWindows_head wm now hlt

/-- Witness for C5: a prior snapshot with effective dates 2 and 1 yields
watermark 2, satisfying the watermark contract. -/
theorem C5_witness : WatermarkSpec (some ⟨true, [wB2, wA1]⟩) 10 3 2 :=
  C5_watermark_effective_date_max (some ⟨true, [wB2, wA1]⟩) 10 3 2
    (by decide)

/-- C6 counterexample: a run whose prior snapshot has an empty workout
list and whose fetch returns two activities with the same id "X".  The
persisted document contains the id twice: the merge only dedups new
workouts against the prior ids (computed once, before the loop), never
against each other. -/
theorem C6_counterexample :
    (run_export envDup 2).written = some ⟨⟨"2.0", 3⟩, [wX2, wX1]⟩ ∧
    ¬ (([wX2, wX1] : List Workout).map Workout.id).Nodup := by decide

/-- C6 (amended): provided the prior snapshot has pairwise-distinct
ids and the freshly formatted batch has pairwise-distinct ids, the
merge-sort-prune pipeline persists a workouts array with
pairwise-distinct ids; the dedup removes only new workouts whose id is
already stored. -/
theorem C6_nodup_ids_of_nodup_batches (A B : List Workout) (now db : Int)
    (sorted pruned : List Workout)
    (hA : (A.map Workout.id).Nodup) (hB : (B.map Workout.id).Nodup)
    (hs : sortStep (mergeWorkouts A B) = .ok sorted)
    (hp : pruneStep now db sorted = .ok pruned) :
    (pruned.map Workout.id).Nodup := by
  have hmerged : ((mergeWorkouts A B).map Workout.id).Nodup := by
    unfold mergeWorkouts
    rw [List.map_append]
    apply List.Nodup.append hA
    · exact ((List.filter_sublist B).map Workout.id).nodup hB
    · intro x hxA hxB
      rcases List.mem_map.mp hxB with ⟨w, hwmem, rfl⟩
      rcases List.mem_filter.mp hwmem with ⟨_, hpred⟩
      simp only [Bool.not_eq_true', decide_eq_false_iff_not] at hpred
      exact hpred hxA
  have hseq : sorted = sortDescBy workKey (mergeWorkouts A B) := by
    unfold sortStep at hs
    split at hs
    · cases hs
    · exact (Except.ok.inj hs).symm
  have hsorted : (sorted.map Workout.id).Nodup := by
    rw [hseq]
    exact (((sortDescBy_perm workKey
      (mergeWorkouts A B)).map Workout.id).symm).nodup hmerged
  have hfil : pruned =
      sorted.filter (fun w => decide (now - db ≤ (dateKey w).getD 0)) := by
    unfold pruneStep at hp
    split at hp
    · cases hp
    · exact (Except.ok.inj hp).symm
  rw [hfil]
  exact (((List.filter_sublist sorted).map Workout.id)).nodup hsorted

/-- Witness for C6: merging distinct-id batches keeps the ids distinct
through sort and prune. -/
theorem C6_witness : (([wB2, wA1] : List Workout).map Workout.id).Nodup :=
  C6_nodup_ids_of_nodup_batches [wA1] [wB2] 3 2 [wB2, wA1] [wB2, wA1]
    (by decide) (by decide) (by decide) (by decide)

/-- C7: for every `since` earlier than `now`, the fetch partitions the
half-open interval from `since` to `now` into consecutive windows of at
most 7 days each, the first starting exactly at `since`; the returned
list is the in-order (oldest window first) concatenation of per-window
results, with a window whose fetch fails contributing nothing while the
loop continues. -/
theorem C7_weekly_window_fetch
    (api : Int → Int → Except Unit (List Activity))
    (since now : Int) (h : since < now) : FetchSpec api since now := by
  refine ⟨?_, ?_, ?_, ?_, ?_⟩
  · exact fetchLoopF_eq_flatMap api now _ since
  · exact fun p hp => fetchWindowsF_width now _ since p hp
  · exact fetchWindowsF_cover now _ since (le_refl _)
  · exact fetchWindowsF_chain now _ since
  · exact fetchWindows_head since now h

/-- Witness for C7: the window partition contract holds for the
interval from 0 to 9 under an always-empty API. -/
theorem C7_witness : FetchSpec apiNone 0 9 :=
  C7_weekly_window_fetch apiNone 0 9 (by norm_num)

/-- C8 counterexample: a fresh first run persists the fetched activities
in fetch order (dates 1 then 2); a second run that loads exactly that
document and fetches nothing new re-sorts the array to dates 2 then 1,
so the two persisted workouts arrays differ. -/
theorem C8_counterexample :
    (run_export envFresh 2).written = some docFresh ∧
    envSecond.loaded = .doc ⟨true, docFresh.workouts⟩ ∧
    (run_export envSecond 2).written = some docSecond ∧
    docSecond.workouts ≠ docFresh.workouts := by decide

/-- C8 (amended): a second run at the same `now` that loads a snapshot
whose workouts all carry effective dates inside the retention window,
already sorted descending by the effective date key (as every
merge-branch run leaves them, but a fresh first run does not), and whose
fetch returns only activities with already-stored ids, persists exactly
the same workouts array, differing at most in `metadata.exported_at`. -/
theorem C8_idempotent_on_sorted_snapshot (env : Env) (db : Int) (ws : List Workout) (doc2 : Doc)
    (h1 : env.download = true)
    (h2 : env.loaded = .doc ⟨true, ws⟩)
    (h3 : ∀ w ∈ ws, (dateKey w).isSome = true ∧
        env.now - db ≤ (dateKey w).getD 0)
    (h4 : sortedByDateKeyDesc ws)
    (h5 : ∀ s e l, env.api s e = .ok l →
        ∀ a ∈ l, some a.id ∈ ws.map Workout.id)
    (h6 : (run_export env db).written = some doc2) :
    doc2.workouts = ws ∧ doc2.metadata = ⟨"2.0", env.now⟩ := by
  have hle : loadExisting env = some ⟨true, ws⟩ := by
    simp [loadExisting, h1, h2]
  unfold run_export at h6
  rw [hle] at h6
  cases hwm : computeWatermark (some ⟨true, ws⟩) env.now db with
  | none => rw [hwm] at h6; cases h6
  | some wm =>
    rw [hwm] at h6
    dsimp only at h6
    have hin : ∀ a ∈ get_strava_activities_since env.api wm env.now,
        some a.id ∈ ws.map Workout.id := by
      intro a ha
      rcases mem_fetchLoopF env.api env.now _ wm a ha with
        ⟨s, e, l, hok, hal⟩
      exact h5 s e l hok a hal
    cases hbm : buildMerged env
        (get_strava_activities_since env.api wm env.now)
        (some ⟨true, ws⟩) with
    | error e => rw [hbm] at h6; cases h6
    | ok ws1 =>
      rw [hbm] at h6
      dsimp only at h6
      cases hpr : pruneStep env.now db ws1 with
      | error e => rw [hpr] at h6; cases h6
      | ok pruned =>
        rw [hpr] at h6
        dsimp only at h6
        have hdoc : doc2 =
            ⟨⟨"2.0", env.now⟩, pruned⟩ := (Option.some.inj h6).symm
        subst hdoc
        unfold buildMerged at hbm
        dsimp only at hbm
        rw [if_pos rfl] at hbm
        cases hei : extractIds ws with
        | error e => rw [hei] at hbm; cases hbm
        | ok ids =>
          rw [hei] at hbm
          dsimp only at hbm
          cases hfj : format_data_for_json env.detailFetch env.now
              (get_strava_activities_since env.api wm env.now) with
          | error e => rw [hfj] at hbm; cases hbm
          | ok fresh =>
            rw [hfj] at hbm
            dsimp only at hbm
            have hfw : ∀ w ∈ fresh.workouts,
                w.id ∈ ws.map Workout.id := by
              unfold format_data_for_json at hfj
              cases hfo : formatWorkouts env.detailFetch
                  (get_strava_activities_since env.api wm env.now) with
              | error e => rw [hfo] at hfj; cases hfj
              | ok fws =>
                rw [hfo] at hfj
                have hfr : fresh.workouts = fws := by
                  rw [← Except.ok.inj hfj]
                intro w hw
                rw [hfr] at hw
                rcases formatWorkouts_ok_mem env.detailFetch _ fws hfo
                  w hw with ⟨a, ha, dd, hdd, rfl⟩
                simpa [formatWorkout] using hin a ha
            have hfilter : fresh.workouts.filter
                (fun w => !decide (w.id ∈ ws.map Workout.id)) = [] := by
              rw [List.filter_eq_nil_iff]
              intro w hw
              simp [hfw w hw]
            have hmw : mergeWorkouts ws fresh.workouts = ws := by
              unfold mergeWorkouts
              rw [hfilter, List.append_nil]
            rw [hmw] at hbm
            have hnone : (ws.any fun w => (dateKey w).isNone) = false := by
              rw [List.any_eq_false]
              intro w hw
              rcases h3 w hw with ⟨hsome, _⟩
              simp [Option.isNone_eq_false_iff, ← Option.isSome_iff_ne_none,
                hsome]
            have hws1 : ws1 = ws := by
              unfold sortStep at hbm
              rw [if_neg (by rw [hnone]; simp)] at hbm
              rw [← Except.ok.inj hbm]
              exact sortDescBy_eq_of_pairwise workKey ws h4
            rw [hws1] at hpr
            have hpruned : pruned = ws := by
              unfold pruneStep at hpr
              rw [if_neg (by rw [hnone]; simp)] at hpr
              rw [← Except.ok.inj hpr]
              apply List.filter_eq_self.mpr
              intro w hw
              rcases h3 w hw with ⟨_, hle'⟩
              simpa using hle'
            exact ⟨hpruned, rfl⟩

/-- Witness for C8: re-running on an already-sorted in-window snapshot
with an empty fetch reproduces the workouts array unchanged. -/
theorem C8_witness :
    docIdem.workouts = [wB2, wA1] ∧
    docIdem.metadata = ⟨"2.0", envIdem.now⟩ :=
  C8_idempotent_on_sorted_snapshot envIdem 2 [wB2, wA1] docIdem
    (by decide) (by decide) (by decide)
    (by unfold sortedByDateKeyDesc; decide)
    (by
      intro s e l hl a ha
      have hl' : l = [] := by
        simp [envIdem] at hl
        exact hl
      subst hl'
      simp at ha)
    (by decide)

/-- C9 counterexample: a downloaded snapshot that is valid JSON of a
different shape — a `workouts` list whose single entry has no date
fields — makes the run abort through the top-level handler instead of
proceeding start-fresh; the same run with no snapshot would have
persisted a document. -/
theorem C9_counterexample :
    run_export envNoDates 2 = ⟨true, none, none, false⟩ ∧
    (run_export { envNoDates with download := false } 2).written ≠
      none := by decide

/-- C9 (amended): when the blob is absent, its content is not valid
JSON, or it parses to an object without a truthy `workouts` key, the run
behaves exactly as a run with no prior snapshot (start fresh); but valid
JSON carrying a `workouts` key of unexpected inner shape is still used
as the merge base and can abort the run. -/
theorem C9_start_fresh_on_missing_or_unparseable (env : Env) (db : Int)
    (h : env.download = false ∨ env.loaded = .parseError ∨
         ∃ d, env.loaded = .doc d ∧ d.hasWorkouts = false) :
    run_export env db = run_export { env with download := false } db := by
  have hR : loadExisting { env with download := false } = none := rfl
  have hnone : loadExisting env = none →
      run_export env db = run_export { env with download := false } db := by
    intro hL
    unfold run_export
    rw [hL, hR]
    rfl
  rcases h with h | h | ⟨d, hd, hw⟩
  · exact hnone (by simp [loadExisting, h])
  · apply hnone
    unfold loadExisting
    rw [h]
    simp
  · by_cases hdl : env.download
    · have hL : loadExisting env = some d := by
        simp [loadExisting, hdl, hd]
      unfold run_export
      rw [hL, hR]
      have hcw : computeWatermark (some d) env.now db =
          computeWatermark none env.now db := by
        simp [computeWatermark, hw]
      rw [hcw]
      have hbm : ∀ acts, buildMerged env acts (some d) =
          buildMerged env acts none := by
        intro acts
        simp [buildMerged, hw]
      simp only [hbm]
      rfl
    · exact hnone (by simp [loadExisting, hdl])

/-- Witness for C9: a run whose download yields unparseable JSON equals
the run with no download at all. -/
theorem C9_witness :
    run_export envParseErr 2 =
      run_export { envParseErr with download := false } 2 :=
  C9_start_fresh_on_missing_or_unparseable envParseErr 2
    (Or.inr (Or.inl rfl))

/-- C10: when the prior snapshot has a non-empty workouts list whose
entries all lack both date fields, the watermark stays unset (`None`)
and the run aborts through the top-level handler — the first use of the
unset watermark raises before any fetch completes — without writing any
document locally or remotely. -/
theorem C10_unset_watermark_aborts_run (env : Env) (db : Int) (d : ExistingDoc)
    (h1 : env.download = true) (h2 : env.loaded = .doc d)
    (h3 : d.hasWorkouts = true) (h4 : d.workouts ≠ [])
    (h5 : ∀ w ∈ d.workouts,
      w.start_date_local = none ∧ w.start_date = none) :
    computeWatermark (loadExisting env) env.now db = none ∧
    run_export env db = ⟨true, none, none, false⟩ := by
  have hle : loadExisting env = some d := by
    simp [loadExisting, h1, h2]
  have hfm : d.workouts.filterMap dateKey = [] := by
    rw [List.filterMap_eq_nil_iff]
    intro w hw
    rcases h5 w hw with ⟨ha, hb⟩
    simp [dateKey, ha, hb]
  have hwm : computeWatermark (loadExisting env) env.now db = none := by
    rw [hle]
    simp only [computeWatermark]
    rw [if_pos]
    · rw [hfm]; rfl
    · simp [h3, h4]
  refine ⟨hwm, ?_⟩
  unfold run_export
  rw [hwm]

/-- Witness for C10: the concrete no-dates snapshot leaves the watermark
unset and aborts the run with nothing written. -/
theorem C10_witness :
    computeWatermark (loadExisting envNoDates) envNoDates.now 2 = none ∧
    run_export envNoDates 2 = ⟨true, none, none, false⟩ :=
  C10_unset_watermark_aborts_run envNoDates 2 ⟨true, [wNoDates]⟩
    (by decide) (by decide) (by decide) (by decide) (by decide)
